import Mathlib

/-!
Verification development for the gohbase client routing layer:
the region location cache (modelled from the spec, as only its tests
appear among the repository sources), the ZooKeeper resource-location
blob decoder (`LocateResource` in zk/client.go), and the `Scan`
request construction and serialization (the hrpc source file).
-/

namespace GoHBase

/-! ## Byte sequences and their lexicographic order

Keys, table names and region names are opaque byte sequences
(`[]byte` in Go); Go compares them with `bytes.Compare`, an unsigned
lexicographic byte comparison.  We model a byte sequence as `List Nat`.
-/

/-- Lexicographic strict order on byte sequences, as `bytes.Compare a b < 0`. -/
def ltB : List Nat → List Nat → Bool
  | [], [] => false
  | [], _ :: _ => true
  | _ :: _, [] => false
  | a :: as, b :: bs => if a < b then true else if b < a then false else ltB as bs

/-- Non-strict order: `bytes.Compare a b <= 0`. -/
def leB (a b : List Nat) : Bool := !(ltB b a)

/-! ## The region descriptor data model

`region.Info` in the repository: a table identifier, an opaque region
name, and a half-open key range `[StartKey, StopKey)` where the empty
byte sequence is the unbounded sentinel.
-/

/-- A region descriptor: one contiguous half-open key partition of one table. -/
structure Info where
  table : List Nat
  name : List Nat
  startKey : List Nat
  stopKey : List Nat
deriving DecidableEq, Repr

/-- A descriptor is well-formed when its range is non-degenerate:
`StartKey < StopKey` unless `StopKey` is the unbounded sentinel. -/
def wf (d : Info) : Bool := d.stopKey == [] || ltB d.startKey d.stopKey

/-- Key `s` lies strictly below stop bound `e`, where the empty sequence as
a stop bound means plus infinity. -/
def ltStop (s e : List Nat) : Bool := e == [] || ltB s e

/-- Two half-open ranges overlap: neither starts at or after the other
one's (possibly unbounded) end. -/
def rangesOverlap (d o : Info) : Bool :=
  ltStop d.startKey o.stopKey && ltStop o.startKey d.stopKey

/-! ## The region location cache, modelled from the spec

The cache implementation is exercised by `TestMetaCache` and
`TestMetaCacheGetOverlaps` in the repository but its own code is not
among the source files; the definitions below follow the spec.
The cache is a collection of descriptors keyed by `(Table, StartKey)`;
we model it as a list carrying that association-key discipline.
-/

/-- A cached entry is of the probe's table and its range intersects the
probe's range. -/
def overlapSameTable (d o : Info) : Bool := o.table == d.table && rangesOverlap d o

/-- Modelled from the spec: `getOverlaps(descriptor)`, restricted to the
same table.  The repository source holds only its tests
(`TestMetaCacheGetOverlaps`); the spec says two intervals `[s1,e1)` and
`[s2,e2)` (empty = infinity) overlap iff `s1 < e2-or-inf` and
`s2 < e1-or-inf`. -/
def getOverlaps (d : Info) (c : List Info) : List Info :=
  c.filter (overlapSameTable d)

/-- An exact self-match: identical StartKey, StopKey and Name (spec 4.1). -/
def exactMatch (d o : Info) : Bool :=
  o.startKey == d.startKey && o.stopKey == d.stopKey && o.name == d.name

/-- A cached entry is reported as superseded by `put`: it overlaps the
new descriptor and is not an exact self-match. -/
def supPred (d o : Info) : Bool := overlapSameTable d o && !(exactMatch d o)

/-- A cached entry survives a `put`: it neither overlaps the new
descriptor nor sits at its `(Table, StartKey)` slot (which the new
descriptor overwrites). -/
def keepPred (d o : Info) : Bool :=
  !(overlapSameTable d o) && !(o.table == d.table && o.startKey == d.startKey)

/-- Modelled from the spec: `put(descriptor)`.  The repository source
holds only its tests (`TestMetaCache`); the spec says `put` inserts or
overwrites the entry keyed by `(Table, StartKey)`, atomically removes
every same-table descriptor whose interval intersects the new one, and
returns the removed descriptors, excluding an exact self-match (same
StartKey, StopKey and Name) from the report.  Result: (new cache,
superseded descriptors). -/
def put (d : Info) (c : List Info) : List Info × List Info :=
  (d :: c.filter (keepPred d), c.filter (supPred d))

/-- One step of the predecessor search: keep the best same-table entry
with `StartKey <= key` seen so far. -/
def floorStep (t k : List Nat) (acc : Option Info) (o : Info) : Option Info :=
  if o.table == t && leB o.startKey k then
    match acc with
    | none => some o
    | some b => if ltB b.startKey o.startKey then some o else acc
  else acc

/-- Modelled from the spec: the predecessor search inside `get`: the
entry with the greatest `StartKey <= key` among entries with the given
table, or none. -/
def floorEntry (t k : List Nat) (c : List Info) : Option Info :=
  c.foldl (floorStep t k) none

/-- Modelled from the spec: `get(table, key)`.  The repository source
holds only its tests (`TestMetaCache`); the spec: predecessor search on
StartKey among same-table entries, then the found entry is a valid
match only if `key < StopKey` or `StopKey` is the unbounded sentinel,
else not-found. -/
def get (t k : List Nat) (c : List Info) : Option Info :=
  match floorEntry t k c with
  | none => none
  | some o => if o.stopKey == [] || ltB k o.stopKey then some o else none

/-! ## Concrete descriptors from the repository tests

Byte sequences written out as ASCII codes; region names are abbreviated
to short opaque byte lists (their content is never interpreted by the
cache beyond identity comparison).
-/

/-- ASCII bytes of the table name "test". -/
def bTest : List Nat := [116, 101, 115, 116]

/-- ASCII bytes of "foo". -/
def bFoo : List Nat := [102, 111, 111]

/-- ASCII bytes of "gohbase". -/
def bGohbase : List Nat := [103, 111, 104, 98, 97, 115, 101]

/-- ASCII bytes of "bar". -/
def bBar : List Nat := [98, 97, 114]

/-- ASCII bytes of "m". -/
def bM : List Nat := [109]

/-- ASCII bytes of "hello". -/
def bHello : List Nat := [104, 101, 108, 108, 111]

/-- First of the three adjacent test descriptors: `["", "foo")`. -/
def region1 : Info := ⟨bTest, [1], [], bFoo⟩

/-- Second of the three adjacent test descriptors: `["foo", "gohbase")`. -/
def region2 : Info := ⟨bTest, [2], bFoo, bGohbase⟩

/-- Third of the three adjacent test descriptors: `["gohbase", "")`. -/
def region3 : Info := ⟨bTest, [3], bGohbase, []⟩

/-- The three-descriptor cache of `TestMetaCache`. -/
def cache3 : List Info := [region1, region2, region3]

/-- A descriptor covering the whole key space of table "test". -/
def wholeTable : Info := ⟨bTest, [9], [], []⟩

/-- The split-simulation descriptor `["", "m")` for table "test". -/
def dSplit : Info := ⟨bTest, [20], [], bM⟩

/-- A descriptor of the other table "hello", range `["", "foo")`. -/
def regionA : Info := ⟨bHello, [10], [], bFoo⟩

/-! ## The ZooKeeper blob decoder (`LocateResource`, zk/client.go)

`LocateResource` dials the quorum, reads the znode blob, and decodes
it.  The network part cannot run in the embedding, so the dial/read
outcome is an input; the decode logic is translated line by line from
the source.  A Go out-of-bounds slice or index aborts the program; the
embedding makes that a distinct `oob` outcome.  `log.Fatalf` on the
empty blob likewise aborts; the embedding makes it the distinct
`fatal` outcome.  Protobuf unmarshalling of the payload is outside the
source files, so it is an input function `decodePayload` yielding the
optional (hostname, port) of the record. -/

/-- Which validation failed: first byte, metadata length, format magic,
or the protobuf payload. -/
inductive DecodeTag where
  | badFirstByte
  | badMetadataLen
  | badMagic
  | badPayload
deriving DecidableEq, Repr

/-- Outcome of a `LocateResource` call. -/
inductive LocateOutcome where
  | ok (host : String) (port : Nat)
  | connErr
  | fatal
  | decodeErr (tag : DecodeTag)
  | oob
deriving DecidableEq, Repr

/-- `binary.BigEndian.Uint32`: reads 4 bytes big-endian, or fails the
bounds check (Go panics) when fewer than 4 bytes remain. -/
def readU32BE : List Nat → Option Nat
  | b0 :: b1 :: b2 :: b3 :: _ => some (((b0 * 256 + b1) * 256 + b2) * 256 + b3)
  | _ => none

/-- The constant from the source: 4 bytes "PBUF" as a big-endian uint32. -/
def pbufMagic : Nat := 1346524486

/-- The decode pipeline of `LocateResource` (zk/client.go lines 69-105),
applied to the blob read from the znode. -/
def locateDecode (decodePayload : List Nat → Option (String × Nat)) (buf : List Nat) :
    LocateOutcome :=
  match buf with
  | [] => .fatal
  | b0 :: rest =>
    if b0 ≠ 255 then .decodeErr .badFirstByte
    else
      match readU32BE rest with
      | none => .oob
      | some metadataLen =>
        if metadataLen < 1 ∨ metadataLen > 65000 then .decodeErr .badMetadataLen
        else if buf.length < 1 + 4 + metadataLen then .oob
        else
          match readU32BE (buf.drop (1 + 4 + metadataLen)) with
          | none => .oob
          | some magic =>
            if magic ≠ pbufMagic then .decodeErr .badMagic
            else
              match decodePayload ((buf.drop (1 + 4 + metadataLen)).drop 4) with
              | none => .decodeErr .badPayload
              | some hp => .ok hp.1 (hp.2 % 65536)

/-- Result of the ZooKeeper dial-and-read step, an input to the model. -/
inductive ConnResult where
  | failed
  | got (blob : List Nat)

/-- `LocateResource`: a connectivity failure (dial or znode read) yields
a connection error; otherwise the blob is decoded. -/
def LocateResource (conn : ConnResult)
    (decodePayload : List Nat → Option (String × Nat)) : LocateOutcome :=
  match conn with
  | .failed => .connErr
  | .got blob => locateDecode decodePayload blob

/-- Big-endian 4-byte encoding of a uint32. -/
def be32 (n : Nat) : List Nat :=
  [n / 16777216 % 256, n / 65536 % 256, n / 256 % 256, n % 256]

/-- The 4 ASCII bytes of "PBUF". -/
def pbufBytes : List Nat := [80, 66, 85, 70]

/-- A concrete payload decoder used by witnesses: recognises the single
payload `[42]` as host "h", port 7. -/
def constPayload : List Nat → Option (String × Nat) :=
  fun l => if l = [42] then some ("h", 7) else none

/-! ## The `Scan` request (hrpc source file)

The `Scan` struct and its `Serialize` method.  `proto.Marshal` is
outside the source files, so serialization is modelled up to the
protobuf message structure (`pb.ScanRequest`) that the source builds
before marshalling; field presence in that structure is what the
claims are about.  The embedded `base` struct and `familiesToColumn`
are outside the source files: the region specifier is carried as an
abstract value and families are carried verbatim. -/

/-- Default maximum versions for scan queries (source constant). -/
def DefaultMaxVersions : Nat := 1

/-- Default minimum timestamp (source constant). -/
def MinTimestamp : Nat := 0

/-- The largest uint64, `math.MaxUint64`. -/
def maxUint64 : Nat := 18446744073709551615

/-- Default maximum timestamp, `math.MaxUint64` (source constant). -/
def MaxTimestamp : Nat := maxUint64

/-- Default maximum number of rows fetched by a scanner (source constant). -/
def DefaultNumberOfRows : Nat := 128

/-- A filter, abstracted to the outcome of its `ConstructPBFilter`
method: `none` means construction returns an error. -/
structure Filter where
  constructPB : Option Nat
deriving DecidableEq, Repr

/-- The `Scan` struct of the hrpc source file. -/
structure Scan where
  table : List Nat
  key : List Nat
  region : Nat
  families : List (List Nat × List (List Nat))
  closeScanner : Bool
  startRow : List Nat
  stopRow : List Nat
  fromTimestamp : Nat
  toTimestamp : Nat
  maxVersions : Nat
  scannerID : Nat
  numberOfRows : Nat
  filters : Option Filter
deriving DecidableEq, Repr

/-- `pb.TimeRange`: both bounds optional. -/
structure PbTimeRange where
  fromT : Option Nat
  toT : Option Nat
deriving DecidableEq, Repr

/-- `pb.Scan`, the scan body inside a `pb.ScanRequest`. -/
structure PbScan where
  column : List (List Nat × List (List Nat))
  startRow : List Nat
  stopRow : List Nat
  timeRange : PbTimeRange
  maxVersions : Option Nat
  filter : Option Nat
deriving DecidableEq, Repr

/-- `pb.ScanRequest`: scanner id and scan body are optional fields. -/
structure ScanRequest where
  region : Nat
  closeScanner : Bool
  numberOfRows : Nat
  scannerId : Option Nat
  scan : Option PbScan
deriving DecidableEq, Repr

/-- `baseScan`: a `Scan` with the default values the source sets
(Go zero values for the unset fields; option functions not applied). -/
def baseScan (table key : List Nat) : Scan :=
  { table := table, key := key, region := 0, families := [],
    closeScanner := false, startRow := [], stopRow := [],
    fromTimestamp := MinTimestamp, toTimestamp := MaxTimestamp,
    maxVersions := DefaultMaxVersions, scannerID := maxUint64,
    numberOfRows := DefaultNumberOfRows, filters := none }

/-- `Serialize` (hrpc source file, lines 179-213), up to the protobuf
message structure: `none` models the error return when filter
construction fails. -/
def Serialize (s : Scan) : Option ScanRequest :=
  let req : ScanRequest :=
    { region := s.region, closeScanner := s.closeScanner,
      numberOfRows := s.numberOfRows, scannerId := none, scan := none }
  if s.scannerID ≠ maxUint64 then
    some { req with scannerId := some s.scannerID }
  else
    let body : PbScan :=
      { column := s.families, startRow := s.startRow, stopRow := s.stopRow,
        timeRange :=
          { fromT := if s.fromTimestamp ≠ MinTimestamp then some s.fromTimestamp else none,
            toT := if s.toTimestamp ≠ MaxTimestamp then some s.toTimestamp else none },
        maxVersions := if s.maxVersions ≠ DefaultMaxVersions then some s.maxVersions else none,
        filter := none }
    match s.filters with
    | none => some { req with scan := some body }
    | some f =>
      match f.constructPB with
      | none => none
      | some pbf => some { req with scan := some { body with filter := some pbf } }

/-! ## Order lemmas -/

theorem ltB_irrefl (a : List Nat) : ltB a a = false := by
  induction a with
  | nil => rfl
  | cons x xs ih => simp [ltB, ih]

theorem leB_refl (a : List Nat) : leB a a = true := by
  simp [leB, ltB_irrefl]

theorem leB_nil (a : List Nat) : leB [] a = true := by
  cases a <;> simp [leB, ltB]

theorem ltB_trans {a b c : List Nat} (h1 : ltB a b = true) (h2 : ltB b c = true) :
    ltB a c = true := by
  induction a generalizing b c with
  | nil =>
    cases b with
    | nil => simp [ltB] at h1
    | cons y ys =>
      cases c with
      | nil => simp [ltB] at h2
      | cons z zs => simp [ltB]
  | cons x xs ih =>
    cases b with
    | nil => simp [ltB] at h1
    | cons y ys =>
      cases c with
      | nil => simp [ltB] at h2
      | cons z zs =>
        simp only [ltB] at h1 h2 ⊢
        rcases Nat.lt_trichotomy x y with hxy | hxy | hxy
        · rcases Nat.lt_trichotomy y z with hyz | hyz | hyz
          · rw [if_pos (Nat.lt_trans hxy hyz)]
          · subst hyz
            rw [if_pos hxy]
          · rw [if_neg (by omega), if_pos hyz] at h2
            exact absurd h2 (by simp)
        · subst hxy
          rw [if_neg (by omega), if_neg (by omega)] at h1
          rcases Nat.lt_trichotomy x z with hxz | hxz | hxz
          · rw [if_pos hxz]
          · subst hxz
            rw [if_neg (by omega), if_neg (by omega)] at h2 ⊢
            exact ih h1 h2
          · rw [if_neg (by omega), if_pos hxz] at h2
            exact absurd h2 (by simp)
        · rw [if_neg (by omega), if_pos hxy] at h1
          exact absurd h1 (by simp)

/-- From `a < b` and `b <= c` conclude `a <= c`. -/
theorem leB_of_ltB_of_leB {a b c : List Nat} (h1 : ltB a b = true) (h2 : leB b c = true) :
    leB a c = true := by
  simp only [leB, Bool.not_eq_true'] at h2 ⊢
  by_contra hc
  simp only [Bool.not_eq_false] at hc
  have := ltB_trans hc h1
  simp [this] at h2

theorem ltStop_nil_start (e : List Nat) : ltStop [] e = true := by
  cases e <;> simp [ltStop, ltB]

theorem ltStop_nil_stop (s : List Nat) : ltStop s [] = true := by
  simp [ltStop]

theorem rangesOverlap_self (d : Info) : rangesOverlap d d = wf d := by
  simp [rangesOverlap, wf, ltStop, Bool.and_self]

theorem exactMatch_self (d : Info) : exactMatch d d = true := by
  simp [exactMatch]

/-! ## Lemmas on the predecessor search -/

theorem floorStep_cases (t k : List Nat) (acc : Option Info) (x : Info) :
    floorStep t k acc x = acc ∨ (floorStep t k acc x = some x ∧ x.table = t) := by
  unfold floorStep
  by_cases h : (x.table == t && leB x.startKey k) = true
  · rw [if_pos h]
    simp only [Bool.and_eq_true, beq_iff_eq] at h
    cases acc with
    | none => exact Or.inr ⟨rfl, h.1⟩
    | some b =>
      dsimp only
      by_cases hb : ltB b.startKey x.startKey = true
      · rw [if_pos hb]
        exact Or.inr ⟨rfl, h.1⟩
      · rw [if_neg hb]
        exact Or.inl rfl
  · rw [if_neg h]
    exact Or.inl rfl

theorem foldl_floorStep_skip (t k : List Nat) (c : List Info) (acc : Option Info)
    (h : ∀ x ∈ c, x.table ≠ t) : c.foldl (floorStep t k) acc = acc := by
  induction c generalizing acc with
  | nil => rfl
  | cons x xs ih =>
    have hx : x.table ≠ t := h x (List.mem_cons_self x xs)
    have hstep : floorStep t k acc x = acc := by
      unfold floorStep
      rw [if_neg]
      simp only [Bool.and_eq_true, beq_iff_eq]
      intro hc
      exact hx hc.1
    rw [List.foldl_cons, hstep]
    exact ih acc (fun y hy => h y (List.mem_cons_of_mem x hy))

theorem foldl_floorStep_some (t k : List Nat) (c : List Info) (acc : Option Info) (o : Info)
    (h : c.foldl (floorStep t k) acc = some o) :
    acc = some o ∨ (o ∈ c ∧ o.table = t) := by
  induction c generalizing acc with
  | nil => exact Or.inl h
  | cons x xs ih =>
    rw [List.foldl_cons] at h
    rcases ih (floorStep t k acc x) h with h1 | h1
    · rcases floorStep_cases t k acc x with h2 | h2
      · exact Or.inl (h2 ▸ h1)
      · rw [h2.1] at h1
        have := Option.some.inj h1
        exact Or.inr ⟨this ▸ List.mem_cons_self x xs, this ▸ h2.2⟩
    · exact Or.inr ⟨List.mem_cons_of_mem x h1.1, h1.2⟩

theorem floorEntry_table (t k : List Nat) (c : List Info) (o : Info)
    (h : floorEntry t k c = some o) : o ∈ c ∧ o.table = t := by
  rcases foldl_floorStep_some t k c none o h with h1 | h1
  · exact absurd h1 (by simp)
  · exact h1

theorem get_table (t k : List Nat) (c : List Info) (o : Info)
    (h : get t k c = some o) : o ∈ c ∧ o.table = t := by
  unfold get at h
  cases hf : floorEntry t k c with
  | none => rw [hf] at h; exact absurd h (by simp)
  | some b =>
    rw [hf] at h
    dsimp only at h
    by_cases hb : (b.stopKey == [] || ltB k b.stopKey) = true
    · rw [if_pos hb] at h
      exact Option.some.inj h ▸ floorEntry_table t k c b hf
    · rw [if_neg hb] at h
      exact absurd h (by simp)

theorem floorEntry_single (t k : List Nat) (d : Info) (rest : List Info)
    (ht : d.table = t) (hk : leB d.startKey k = true)
    (hrest : ∀ x ∈ rest, x.table ≠ t) :
    floorEntry t k (d :: rest) = some d := by
  unfold floorEntry
  rw [List.foldl_cons]
  have hstep : floorStep t k none d = some d := by
    unfold floorStep
    rw [if_pos]
    simp [ht, hk]
  rw [hstep]
  exact foldl_floorStep_skip t k rest (some d) hrest

/-- Membership in `getOverlaps`, unfolded. -/
theorem mem_getOverlaps (d o : Info) (c : List Info) :
    o ∈ getOverlaps d c ↔
      o ∈ c ∧ o.table = d.table ∧
        ltStop d.startKey o.stopKey = true ∧ ltStop o.startKey d.stopKey = true := by
  simp [getOverlaps, overlapSameTable, List.mem_filter, rangesOverlap, Bool.and_eq_true,
    beq_iff_eq, and_assoc]

/-! ## The claims -/

/-- C1: `getOverlaps` reports a cached descriptor as overlapping the
probe descriptor iff it is of the same table and `s1 < e2-or-infinity`
and `s2 < e1-or-infinity` (empty stop = unbounded); in particular a
descriptor overlaps an identical cached copy of itself, a table with no
cached entries yields the empty set, descriptors of a different table
are never reported, a fully unbounded descriptor overlaps every cached
entry of its table, and two adjacent ranges sharing only an endpoint do
not overlap. -/
theorem getOverlaps_spec (d : Info) (c : List Info) :
    (∀ o : Info, o ∈ getOverlaps d c ↔
        o ∈ c ∧ o.table = d.table ∧
          ltStop d.startKey o.stopKey = true ∧ ltStop o.startKey d.stopKey = true)
    ∧ (wf d = true → d ∈ c → d ∈ getOverlaps d c)
    ∧ ((∀ o ∈ c, o.table ≠ d.table) → getOverlaps d c = [])
    ∧ (∀ o ∈ getOverlaps d c, o.table = d.table)
    ∧ (d.startKey = [] → d.stopKey = [] → ∀ o ∈ c, o.table = d.table → o ∈ getOverlaps d c)
    ∧ (∀ o ∈ c, d.stopKey ≠ [] → o.startKey = d.stopKey → o ∉ getOverlaps d c)
    ∧ (∀ o ∈ c, d.startKey ≠ [] → o.stopKey = d.startKey → o ∉ getOverlaps d c) := by
  refine ⟨fun o => mem_getOverlaps d o c, ?_, ?_, ?_, ?_, ?_, ?_⟩
  · intro hwf hd
    refine (mem_getOverlaps d d c).mpr ⟨hd, rfl, ?_, ?_⟩ <;>
      simpa [wf, ltStop] using hwf
  · intro h
    refine List.filter_eq_nil_iff.mpr (fun o ho => ?_)
    simp only [overlapSameTable, Bool.and_eq_true, beq_iff_eq, not_and]
    intro hto
    exact absurd hto (h o ho)
  · intro o ho
    exact ((mem_getOverlaps d o c).mp ho).2.1
  · intro hs he o ho hto
    refine (mem_getOverlaps d o c).mpr ⟨ho, hto, ?_, ?_⟩
    · rw [hs]
      exact ltStop_nil_start o.stopKey
    · rw [he]
      exact ltStop_nil_stop o.startKey
  · intro o ho hne heq hmem
    have h2 := ((mem_getOverlaps d o c).mp hmem).2.2.2
    rw [heq] at h2
    simp only [ltStop, Bool.or_eq_true, beq_iff_eq] at h2
    rcases h2 with h2 | h2
    · exact hne h2
    · rw [ltB_irrefl] at h2
      exact absurd h2 (by simp)
  · intro o ho hne heq hmem
    have h2 := ((mem_getOverlaps d o c).mp hmem).2.2.1
    rw [heq] at h2
    simp only [ltStop, Bool.or_eq_true, beq_iff_eq] at h2
    rcases h2 with h2 | h2
    · exact hne h2
    · rw [ltB_irrefl] at h2
      exact absurd h2 (by simp)

/-- Witness for C1, at the concrete test descriptors: a descriptor
overlaps an identical cached copy of itself, and the adjacent
descriptor sharing only the endpoint "foo" is not reported. -/
theorem getOverlaps_spec_instance :
    region1 ∈ getOverlaps region1 [region1] ∧ region1 ∉ getOverlaps region2 [region1] :=
  ⟨(getOverlaps_spec region1 [region1]).2.1 (by decide) (by decide),
   (getOverlaps_spec region2 [region1]).2.2.2.2.2.2 region1 (by decide) (by decide) (by decide)⟩

/-- C3: with the three adjacent descriptors `["", "foo")`,
`["foo", "gohbase")`, `["gohbase", "")` cached for table "test", `get`
returns the descriptor whose half-open range contains the key:
"bar" hits the first, "foo" the second, "gohbase" the third, and the
empty key the first. -/
theorem get_three_adjacent :
    get bTest bBar cache3 = some region1 ∧
    get bTest bFoo cache3 = some region2 ∧
    get bTest bGohbase cache3 = some region3 ∧
    get bTest [] cache3 = some region1 := by decide

/-- C6: if no descriptor of table `t` is cached, `get t k` returns
not-found, and `get` never returns a descriptor cached for a different
table. -/
theorem get_unknown_table (t k : List Nat) (c : List Info) :
    ((∀ o ∈ c, o.table ≠ t) → get t k c = none)
    ∧ (∀ o : Info, get t k c = some o → o ∈ c ∧ o.table = t) := by
  constructor
  · intro h
    unfold get floorEntry
    rw [foldl_floorStep_skip t k c none h]
  · exact get_table t k c

/-- Witness for C6: table "test" has no entry in a cache holding only a
descriptor of table "hello". -/
theorem get_unknown_table_instance : get bTest bBar [regionA] = none :=
  (get_unknown_table bTest bBar [regionA]).1 (by decide)

/-- C7: `put` is idempotent on an exact duplicate: re-inserting a
descriptor already cached reports no superseded descriptors, leaves the
cache unchanged, and the cache holds exactly one entry for that range. -/
theorem put_exact_duplicate (c : List Info) (d : Info) :
    (put d (put d c).1).2 = []
    ∧ (put d (put d c).1).1 = (put d c).1
    ∧ (put d (put d c).1).1.count d = 1 := by
  have hkeep : ¬ keepPred d d = true := by
    simp [keepPred, overlapSameTable]
  have hsup : ¬ supPred d d = true := by
    simp [supPred, exactMatch_self]
  have hmemk : ∀ x ∈ c.filter (keepPred d), keepPred d x = true :=
    fun x hx => (List.mem_filter.mp hx).2
  have hsupx : ∀ x ∈ c.filter (keepPred d), ¬ supPred d x = true := by
    intro x hx hs
    have hk := hmemk x hx
    simp only [keepPred, Bool.and_eq_true, Bool.not_eq_true'] at hk
    simp only [supPred, Bool.and_eq_true] at hs
    rw [hk.1] at hs
    exact absurd hs.1 (by simp)
  have hnot : d ∉ c.filter (keepPred d) := fun hd => hkeep (hmemk d hd)
  refine ⟨?_, ?_, ?_⟩
  · show (d :: c.filter (keepPred d)).filter (supPred d) = []
    rw [List.filter_cons_of_neg hsup]
    exact List.filter_eq_nil_iff.mpr hsupx
  · show d :: (d :: c.filter (keepPred d)).filter (keepPred d) = d :: c.filter (keepPred d)
    rw [List.filter_cons_of_neg hkeep, List.filter_eq_self.mpr hmemk]
  · show (d :: (d :: c.filter (keepPred d)).filter (keepPred d)).count d = 1
    rw [List.filter_cons_of_neg hkeep, List.filter_eq_self.mpr hmemk,
      List.count_cons_self, List.count_eq_zero_of_not_mem hnot]

/-- Witness for C7, at the whole-table test descriptor: the statement is
hypothesis-free; this instance evaluates it on a concrete cache. -/
theorem put_exact_duplicate_instance :
    (put wholeTable (put wholeTable [wholeTable]).1).2 = [] :=
  (put_exact_duplicate [wholeTable] wholeTable).1

/-- C2: a `put` removes every cached same-table descriptor whose range
overlaps the new one (reporting the non-identical ones as superseded),
installs the new descriptor, and when every cached same-table entry was
superseded, a `get` at or past the new descriptor's bounded stop key
returns not-found rather than data from a superseded entry. -/
theorem put_overlap_supersedes (c : List Info) (d : Info) (k : List Nat) :
    (∀ o ∈ c, overlapSameTable d o = true → exactMatch d o = false → o ∈ (put d c).2)
    ∧ (∀ o ∈ c, overlapSameTable d o = true → o ∈ (put d c).1 → o = d)
    ∧ d ∈ (put d c).1
    ∧ (d.stopKey ≠ [] → ltB d.startKey d.stopKey = true → leB d.stopKey k = true →
        (∀ o ∈ c, o.table = d.table → overlapSameTable d o = true) →
        get d.table k (put d c).1 = none) := by
  refine ⟨?_, ?_, ?_, ?_⟩
  · intro o ho hov hex
    refine List.mem_filter.mpr ⟨ho, ?_⟩
    simp [supPred, hov, hex]
  · intro o ho hov hmem
    rcases List.mem_cons.mp hmem with h1 | h1
    · exact h1
    · have hk := (List.mem_filter.mp h1).2
      simp only [keepPred, Bool.and_eq_true, Bool.not_eq_true'] at hk
      rw [hov] at hk
      exact absurd hk.1 (by simp)
  · exact List.mem_cons_self d _
  · intro hne hlt hle hall
    have hrest : ∀ x ∈ c.filter (keepPred d), x.table ≠ d.table := by
      intro x hx hxt
      have hk := (List.mem_filter.mp hx).2
      simp only [keepPred, Bool.and_eq_true, Bool.not_eq_true'] at hk
      have := hall x (List.mem_filter.mp hx).1 hxt
      rw [this] at hk
      exact absurd hk.1 (by simp)
    have hfloor : floorEntry d.table k (d :: c.filter (keepPred d)) = some d :=
      floorEntry_single d.table k d (c.filter (keepPred d)) rfl
        (leB_of_ltB_of_leB hlt hle) hrest
    show get d.table k (d :: c.filter (keepPred d)) = none
    unfold get
    rw [hfloor]
    dsimp only
    rw [if_neg]
    simp only [Bool.or_eq_true, beq_iff_eq, not_or]
    refine ⟨hne, ?_⟩
    simp only [leB, Bool.not_eq_true'] at hle
    simp [hle]

/-- Witness for C2: the split simulation of the repository test: the
whole-table descriptor is superseded by `["", "m")`, and `get` at key
"m" then reports not-found. -/
theorem put_overlap_supersedes_instance :
    wholeTable ∈ (put dSplit [wholeTable]).2
    ∧ dSplit ∈ (put dSplit [wholeTable]).1
    ∧ get dSplit.table bM (put dSplit [wholeTable]).1 = none :=
  ⟨(put_overlap_supersedes [wholeTable] dSplit bM).1 wholeTable (by decide) (by decide)
      (by decide),
   (put_overlap_supersedes [wholeTable] dSplit bM).2.2.1,
   (put_overlap_supersedes [wholeTable] dSplit bM).2.2.2 (by decide) (by decide) (by decide)
      (by decide)⟩

/-- A successful 4-byte big-endian read implies at least 4 bytes. -/
theorem readU32BE_length {l : List Nat} {n : Nat} (h : readU32BE l = some n) :
    4 ≤ l.length :=
  match l with
  | _ :: _ :: _ :: _ :: _ => by simp only [List.length_cons]; omega
  | [] => by simp [readU32BE] at h
  | [_] => by simp [readU32BE] at h
  | [_, _] => by simp [readU32BE] at h
  | [_, _, _] => by simp [readU32BE] at h

/-- C5: every well-formed blob -- `0xFF`, a 4-byte big-endian metadata
length in `[1, 65000]`, that many (uninterpreted) metadata bytes, the
magic "PBUF", then a payload the record decoder accepts -- decodes to
the record's (hostname, port). -/
theorem locateDecode_wellformed (decodePayload : List Nat → Option (String × Nat))
    (metadata payload : List Nat) (host : String) (port : Nat)
    (h1 : 1 ≤ metadata.length) (h2 : metadata.length ≤ 65000)
    (hp : decodePayload payload = some (host, port)) (hport : port < 65536) :
    locateDecode decodePayload
      (255 :: (be32 metadata.length ++ metadata ++ pbufBytes ++ payload))
      = .ok host port := by
  have hlen32 : readU32BE (be32 metadata.length ++ metadata ++ pbufBytes ++ payload)
      = some metadata.length := by
    simp only [be32, List.cons_append, List.nil_append, readU32BE]
    congr 1
    omega
  have hlength : (255 :: (be32 metadata.length ++ metadata ++ pbufBytes ++ payload)).length
      = 9 + metadata.length + payload.length := by
    simp [be32, pbufBytes, List.length_append]
    omega
  have hsplit : (255 :: (be32 metadata.length ++ metadata ++ pbufBytes ++ payload))
      = (255 :: (be32 metadata.length ++ metadata)) ++ (pbufBytes ++ payload) := by
    simp [List.append_assoc]
  have hdrop : (255 :: (be32 metadata.length ++ metadata ++ pbufBytes ++ payload)).drop
      (1 + 4 + metadata.length) = pbufBytes ++ payload := by
    rw [hsplit]
    refine List.drop_left' ?_
    simp [be32]
    omega
  have hmagic : readU32BE (pbufBytes ++ payload) = some pbufMagic := by
    simp [pbufBytes, readU32BE, pbufMagic]
  have hdrop4 : (pbufBytes ++ payload).drop 4 = payload := rfl
  simp only [locateDecode, hlen32]
  rw [if_neg (by omega)]
  rw [if_neg (by omega), if_neg (by rw [hlength]; omega)]
  rw [hdrop, hmagic]
  simp only [pbufMagic]
  rw [if_neg (by omega)]
  rw [hdrop4, hp]
  simp [Nat.mod_eq_of_lt hport]

/-- Witness for C5: a one-byte metadata blob around the payload `[42]`
that `constPayload` resolves to ("h", 7). -/
theorem locateDecode_wellformed_instance :
    locateDecode constPayload
      (255 :: (be32 ([0] : List Nat).length ++ [0] ++ pbufBytes ++ [42])) = .ok "h" 7 :=
  locateDecode_wellformed constPayload [0] [42] "h" 7 (by decide) (by decide)
    (by decide) (by decide)

/-- C4: a blob whose first byte is not 0xFF, or whose big-endian 4-byte
metadata length is 0 or above 65000, or whose 4-byte format magic after
the metadata is not "PBUF" as a big-endian uint32, yields a decode
error, which carries no (hostname, port) result. -/
theorem locateDecode_malformed (decodePayload : List Nat → Option (String × Nat)) :
    (∀ b0 : Nat, ∀ rest : List Nat, b0 ≠ 255 →
        locateDecode decodePayload (b0 :: rest) = .decodeErr .badFirstByte)
    ∧ (∀ rest : List Nat, ∀ n : Nat, readU32BE rest = some n → n < 1 ∨ n > 65000 →
        locateDecode decodePayload (255 :: rest) = .decodeErr .badMetadataLen)
    ∧ (∀ metadata tail : List Nat, ∀ m : Nat,
        1 ≤ metadata.length → metadata.length ≤ 65000 →
        readU32BE tail = some m → m ≠ pbufMagic →
        locateDecode decodePayload (255 :: (be32 metadata.length ++ metadata ++ tail))
          = .decodeErr .badMagic)
    ∧ (∀ t : DecodeTag, ∀ h : String, ∀ p : Nat,
        LocateOutcome.decodeErr t ≠ LocateOutcome.ok h p) := by
  refine ⟨?_, ?_, ?_, ?_⟩
  · intro b0 rest hb
    simp only [locateDecode]
    rw [if_pos hb]
  · intro rest n hn hrange
    simp only [locateDecode, hn]
    rw [if_neg (by omega), if_pos hrange]
  · intro metadata tail m hm1 hm2 hmt hmm
    have hlen32 : readU32BE (be32 metadata.length ++ metadata ++ tail)
        = some metadata.length := by
      simp only [be32, List.cons_append, List.nil_append, readU32BE]
      congr 1
      omega
    have htail : 4 ≤ tail.length := readU32BE_length hmt
    have hlength : (255 :: (be32 metadata.length ++ metadata ++ tail)).length
        = 5 + metadata.length + tail.length := by
      simp [be32, List.length_append]
      omega
    have hsplit : (255 :: (be32 metadata.length ++ metadata ++ tail))
        = (255 :: (be32 metadata.length ++ metadata)) ++ tail := by
      simp [List.append_assoc]
    have hdrop : (255 :: (be32 metadata.length ++ metadata ++ tail)).drop
        (1 + 4 + metadata.length) = tail := by
      rw [hsplit]
      refine List.drop_left' ?_
      simp [be32]
      omega
    simp only [locateDecode, hlen32]
    rw [if_neg (by omega)]
    rw [if_neg (by omega), if_neg (by rw [hlength]; omega)]
    rw [hdrop, hmt]
    dsimp only
    rw [if_pos hmm]
  · intro t h p hx
    exact LocateOutcome.noConfusion hx

/-- Witness for C4: one concrete blob for each of the three decode
faults. -/
theorem locateDecode_malformed_instance :
    locateDecode constPayload [0, 1, 2, 3, 4] = .decodeErr .badFirstByte
    ∧ locateDecode constPayload [255, 0, 0, 0, 0, 9] = .decodeErr .badMetadataLen
    ∧ locateDecode constPayload (255 :: (be32 ([7] : List Nat).length ++ [7] ++ [0, 0, 0, 0]))
        = .decodeErr .badMagic :=
  ⟨(locateDecode_malformed constPayload).1 0 [1, 2, 3, 4] (by decide),
   (locateDecode_malformed constPayload).2.1 [0, 0, 0, 0, 9] 0 (by decide) (by decide),
   (locateDecode_malformed constPayload).2.2.1 [7] [0, 0, 0, 0] 0 (by decide) (by decide)
     (by decide) (by decide)⟩

/-- C8: a present-but-empty blob is a fatal configuration fault -- the
source calls `log.Fatalf`, aborting the resolution attempt outright
(never retried) -- distinct from every decode error and from the
connectivity error. -/
theorem locateResource_empty_fatal (decodePayload : List Nat → Option (String × Nat)) :
    LocateResource (.got []) decodePayload = .fatal
    ∧ LocateResource .failed decodePayload = .connErr
    ∧ (∀ t : DecodeTag, LocateOutcome.fatal ≠ LocateOutcome.decodeErr t)
    ∧ LocateOutcome.fatal ≠ LocateOutcome.connErr
    ∧ (∀ h : String, ∀ p : Nat, LocateOutcome.fatal ≠ LocateOutcome.ok h p) :=
  ⟨rfl, rfl, fun _ hx => LocateOutcome.noConfusion hx,
   fun hx => LocateOutcome.noConfusion hx,
   fun _ _ hx => LocateOutcome.noConfusion hx⟩

/-- Witness for C8: the empty blob with the concrete payload decoder. -/
theorem locateResource_empty_fatal_instance :
    LocateResource (.got []) constPayload = .fatal
    ∧ LocateOutcome.fatal ≠ LocateOutcome.connErr :=
  ⟨(locateResource_empty_fatal constPayload).1,
   (locateResource_empty_fatal constPayload).2.2.2.1⟩

/-- C9: after the emptiness test the source indexes the blob without
bounds checks: a non-empty blob shorter than 5 bytes dies reading the
metadata length, one shorter than `5 + metadata length` dies slicing
past the metadata, and one without 4 magic bytes after the metadata
dies reading the format magic -- an out-of-bounds access, not a decode
error. -/
theorem locateDecode_oob (decodePayload : List Nat → Option (String × Nat)) :
    locateDecode decodePayload [255] = .oob
    ∧ ([255] : List Nat) ≠ [] ∧ ([255] : List Nat).length < 1 + 4
    ∧ locateDecode decodePayload [255, 0, 0, 0, 1] = .oob
    ∧ ([255, 0, 0, 0, 1] : List Nat).length < 1 + 4 + 1
    ∧ locateDecode decodePayload [255, 0, 0, 0, 1, 7] = .oob
    ∧ ([255, 0, 0, 0, 1, 7] : List Nat).length < 1 + 4 + 1 + 4 :=
  ⟨rfl, by decide, by decide, rfl, by decide, rfl, by decide⟩

/-- Witness for C9: the shortest non-empty blob, with the concrete
payload decoder. -/
theorem locateDecode_oob_instance : locateDecode constPayload [255] = .oob :=
  (locateDecode_oob constPayload).1

/-- C10: a `Scan` built by `baseScan` carries the sentinel scanner ID
`2^64 - 1` ("no scanner ID"); `Serialize` includes the ScannerId field
and omits the whole scan body exactly when the scanner ID differs from
the sentinel, and includes the scan body (start row, stop row, column
families) with no ScannerId field when it equals the sentinel. -/
theorem scan_scannerID_sentinel (t k : List Nat) (s : Scan) :
    (baseScan t k).scannerID = 2 ^ 64 - 1
    ∧ (s.scannerID ≠ 2 ^ 64 - 1 →
        Serialize s = some { region := s.region, closeScanner := s.closeScanner,
                             numberOfRows := s.numberOfRows,
                             scannerId := some s.scannerID, scan := none })
    ∧ (s.scannerID = 2 ^ 64 - 1 → ∀ r : ScanRequest, Serialize s = some r →
        r.scannerId = none ∧ ∃ body : PbScan, r.scan = some body
          ∧ body.column = s.families ∧ body.startRow = s.startRow
          ∧ body.stopRow = s.stopRow)
    ∧ (∀ r : ScanRequest, Serialize s = some r →
        ((r.scannerId = some s.scannerID ∧ r.scan = none) ↔ s.scannerID ≠ 2 ^ 64 - 1)) := by
  have hmax : maxUint64 = 2 ^ 64 - 1 := by decide
  have hbody : s.scannerID = 2 ^ 64 - 1 → ∀ r : ScanRequest, Serialize s = some r →
      r.scannerId = none ∧ ∃ body : PbScan, r.scan = some body
        ∧ body.column = s.families ∧ body.startRow = s.startRow
        ∧ body.stopRow = s.stopRow := by
    intro heq r hr
    have hid : ¬ s.scannerID ≠ maxUint64 := fun hx => hx (hmax ▸ heq)
    simp only [Serialize] at hr
    rw [if_neg hid] at hr
    cases hf : s.filters with
    | none =>
      rw [hf] at hr
      dsimp only at hr
      rcases Option.some.inj hr with rfl
      exact ⟨rfl, _, rfl, rfl, rfl, rfl⟩
    | some f =>
      rw [hf] at hr
      dsimp only at hr
      cases hc : f.constructPB with
      | none =>
        rw [hc] at hr
        exact absurd hr (by simp)
      | some pbf =>
        rw [hc] at hr
        dsimp only at hr
        rcases Option.some.inj hr with rfl
        exact ⟨rfl, _, rfl, rfl, rfl, rfl⟩
  have hone : s.scannerID ≠ 2 ^ 64 - 1 →
      Serialize s = some { region := s.region, closeScanner := s.closeScanner,
                           numberOfRows := s.numberOfRows,
                           scannerId := some s.scannerID, scan := none } := by
    intro hne
    simp only [Serialize]
    rw [if_pos (fun hx => hne (hmax ▸ hx))]
  refine ⟨by rw [baseScan]; exact hmax, hone, hbody, ?_⟩
  intro r hr
  by_cases hs : s.scannerID = 2 ^ 64 - 1
  · constructor
    · intro hx
      have h1 := (hbody hs r hr).1
      rw [h1] at hx
      exact absurd hx.1 (by simp)
    · intro hx
      exact absurd hs hx
  · constructor
    · intro _
      exact hs
    · intro _
      have := hone hs
      rw [hr] at this
      rcases Option.some.inj this with rfl
      exact ⟨rfl, rfl⟩

/-- Witness for C10: a fresh `baseScan` serializes to a request with a
scan body and no ScannerId, while the same scan with scanner ID 5
serializes to a request with ScannerId 5 and no scan body. -/
theorem scan_scannerID_sentinel_instance :
    (baseScan bTest []).scannerID = 2 ^ 64 - 1
    ∧ Serialize { baseScan bTest [] with scannerID := 5 }
        = some { region := 0, closeScanner := false, numberOfRows := 128,
                 scannerId := some 5, scan := none }
    ∧ (∀ r : ScanRequest, Serialize (baseScan bTest []) = some r → r.scannerId = none) :=
  ⟨(scan_scannerID_sentinel bTest [] (baseScan bTest [])).1,
   (scan_scannerID_sentinel bTest [] { baseScan bTest [] with scannerID := 5 }).2.1
     (by decide),
   fun r hr =>
     ((scan_scannerID_sentinel bTest [] (baseScan bTest [])).2.2.1 (by decide) r hr).1⟩

end GoHBase
